import Mathlib

/-!
# git-filter-server: a shallow embedding of the protocol core

This file embeds the core of the `git-filter-server` crate (the Git
long-running filter-process protocol, version 2) in Lean and proves
properties of the embedding.

The embedding follows the Rust source file by file:

* `src/ext.rs`   — the pkt-line codec (`pkt_bin_read`, `pkt_text_read`,
  `pkt_bin_write`, `pkt_text_write`, `pkt_end`);
* `src/util.rs`  — the payload-stream adapters (`WritePkt`,
  `ReadPktUntilFlush`);
* `src/lib.rs`   — the protocol state machine
  (`GitFilterServer::communicate_internal` / `communicate`);
* `src/processor.rs` — the `Processor` trait, modelled as a record of
  state transformers on the stream handles.

Bytes are natural numbers; byte streams are `List Nat`.  Machine-integer
arithmetic that can overflow in the source (`len -= 4` on a `usize`,
`saturating_add` on a `u64`) is modelled with explicit `% 2^64` wrapping
(release-profile semantics) resp. saturation.  Fallible Rust code returns
`Except RunErr`; `panic!` / failed `assert!` are modelled with the
distinguished error `RunErr.panic`, which no handler in the state machine
catches (a Rust panic unwinds past `communicate`).
-/

/-- Errors a session can end with.  `eof` is `ErrorKind::UnexpectedEof`
(`read_exact` hitting end of stream), `parse` is the `parse_error!` macro
(`ErrorKind::InvalidData`) carrying the message bytes, `panic` models a Rust
panic (failed `assert!` or explicit `panic!`), and `fuel` is a model
artifact: the command loop of `communicate_internal` is unbounded in Rust
and is given explicit fuel here. -/
inductive RunErr where
  | eof : RunErr
  | parse : List Nat → RunErr
  | panic : List Nat → RunErr
  | fuel : RunErr
deriving DecidableEq, Repr

deriving instance DecidableEq for Except

/-- The bytes of an ASCII string literal (used for the wire keywords and for
error messages; all the literals involved are ASCII, where `Char.toNat`
agrees with UTF-8). -/
def ascii (s : String) : List Nat := s.data.map Char.toNat

/-- The `hex` crate's digit decoding: `0-9`, `a-f` and `A-F` are accepted. -/
def fromHexDigit (b : Nat) : Option Nat :=
  if 48 ≤ b ∧ b ≤ 57 then some (b - 48)
  else if 97 ≤ b ∧ b ≤ 102 then some (b - 87)
  else if 65 ≤ b ∧ b ≤ 70 then some (b - 55)
  else none

/-- Lowercase hex digit, as emitted by `hex::encode_to_slice`. -/
def toHexDigit (d : Nat) : Nat := if d < 10 then 48 + d else 87 + d

/-- The 4 header bytes for a total frame length `L`: `hex::encode_to_slice`
of `(L : u16).to_be_bytes()`. -/
def lenHex (L : Nat) : List Nat :=
  [toHexDigit (L / 4096 % 16), toHexDigit (L / 256 % 16),
   toHexDigit (L / 16 % 16), toHexDigit (L % 16)]

/-- A UTF-8 continuation byte (`10xxxxxx`). -/
def isCont (b : Nat) : Bool := 128 ≤ b && b ≤ 191

/-- UTF-8 validity as checked by `std::str::from_utf8` (no overlong forms,
no surrogates, code points at most `0x10FFFF`). -/
def isValidUtf8 : List Nat → Bool
  | [] => true
  | b :: rest =>
    if b ≤ 127 then isValidUtf8 rest
    else if 194 ≤ b && b ≤ 223 then
      match rest with
      | c1 :: rest2 => isCont c1 && isValidUtf8 rest2
      | [] => false
    else if b = 224 then
      match rest with
      | c1 :: c2 :: rest2 => (160 ≤ c1 && c1 ≤ 191) && isCont c2 && isValidUtf8 rest2
      | _ => false
    else if 225 ≤ b && b ≤ 236 then
      match rest with
      | c1 :: c2 :: rest2 => isCont c1 && isCont c2 && isValidUtf8 rest2
      | _ => false
    else if b = 237 then
      match rest with
      | c1 :: c2 :: rest2 => (128 ≤ c1 && c1 ≤ 159) && isCont c2 && isValidUtf8 rest2
      | _ => false
    else if 238 ≤ b && b ≤ 239 then
      match rest with
      | c1 :: c2 :: rest2 => isCont c1 && isCont c2 && isValidUtf8 rest2
      | _ => false
    else if b = 240 then
      match rest with
      | c1 :: c2 :: c3 :: rest2 =>
        (144 ≤ c1 && c1 ≤ 191) && isCont c2 && isCont c3 && isValidUtf8 rest2
      | _ => false
    else if 241 ≤ b && b ≤ 243 then
      match rest with
      | c1 :: c2 :: c3 :: rest2 => isCont c1 && isCont c2 && isCont c3 && isValidUtf8 rest2
      | _ => false
    else if b = 244 then
      match rest with
      | c1 :: c2 :: c3 :: rest2 =>
        (128 ≤ c1 && c1 ≤ 143) && isCont c2 && isCont c3 && isValidUtf8 rest2
      | _ => false
    else false

/-- From `ext.rs`: `const MAX_PKT_SIZE: usize = 65516`. -/
def MAX_PKT_SIZE : Nat := 65516

/-- From `ext.rs`, `ReadExt::pkt_bin_read`: read 4 hex header bytes; `0000` is a
flush (`none`); otherwise `len -= 4` (usize subtraction, wrapping modulo
`2^64` in release profile), reject `len > MAX_PKT_SIZE` and `len == 0`, and
read exactly `len` payload bytes.  Returns the payload (the caller-supplied
buffer is a functional return value here) and the unread remainder of the
input.  A short read is `RunErr.eof` (`read_exact`). -/
def pkt_bin_read (input : List Nat) : Except RunErr (Option (List Nat) × List Nat) :=
  match input with
  | h1 :: h2 :: h3 :: h4 :: rest =>
    match fromHexDigit h1, fromHexDigit h2, fromHexDigit h3, fromHexDigit h4 with
    | some d1, some d2, some d3, some d4 =>
      let len := (d1 * 16 + d2) * 256 + (d3 * 16 + d4)
      if len = 0 then .ok (none, rest)
      else
        let len2 := (len + (2 ^ 64 - 4)) % 2 ^ 64
        if MAX_PKT_SIZE < len2 then .error (.parse (ascii "max packet size exceeded"))
        else if len2 = 0 then .error (.parse (ascii "packet size is zero"))
        else if len2 ≤ rest.length then .ok (some (rest.take len2), rest.drop len2)
        else .error .eof
    | _, _, _, _ => .error (.parse (ascii "bad hex len"))
  | _ => .error .eof

/-- From `ext.rs`, `ReadExt::pkt_text_read`: a binary payload must end with the
single byte `0x0A` (`s.ends_with(b"\n")`, i.e. the last byte is 10) and the
bytes before it must be valid UTF-8; a flush propagates as `none`. -/
def pkt_text_read (input : List Nat) : Except RunErr (Option (List Nat) × List Nat) :=
  match pkt_bin_read input with
  | .error e => .error e
  | .ok (none, rest) => .ok (none, rest)
  | .ok (some s, rest) =>
    if s.getLast? = some 10 then
      if isValidUtf8 s.dropLast then .ok (some s.dropLast, rest)
      else .error (.parse (ascii "bad utf-8"))
    else .error (.parse (ascii "string should end with \n"))

/-- Fueled form of `data.chunks(65512)`; each round removes 65512 elements,
so fuel `l.length` always suffices (the fuel-0 case with a non-empty list is
unreachable from `chunks65512`). -/
def chunksGo : Nat → List Nat → List (List Nat)
  | _, [] => []
  | 0, x :: xs => [x :: xs]
  | f + 1, x :: xs => ((x :: xs).take 65512) :: chunksGo f ((x :: xs).drop 65512)

/-- The chunking `data.chunks(65512)` of `ext.rs`'s `pkt_bin_write` (the chunk size is
`MAX_PKT_SIZE - 4`): successive chunks of at most 65512 bytes; an empty
slice yields no chunks. -/
def chunks65512 (l : List Nat) : List (List Nat) := chunksGo l.length l

/-- From `ext.rs`, `WriteExt::pkt_bin_write`: each chunk is emitted as
`hex(chunk.len() as u16 + 4)` followed by the chunk bytes. -/
def pkt_bin_write (data : List Nat) : List Nat :=
  (chunks65512 data).flatMap fun chunk =>
    lenHex ((chunk.length % 2 ^ 16 + 4) % 2 ^ 16) ++ chunk

/-- From `ext.rs`, `WriteExt::pkt_text_write`: append `'\n'` and write binary. -/
def pkt_text_write (data : List Nat) : List Nat := pkt_bin_write (data ++ [10])

/-- From `ext.rs`, `WriteExt::pkt_end`: the literal bytes `0000` (the underlying
`flush()` is a no-op on a byte-list sink). -/
def pktEndB : List Nat := [48, 48, 48, 48]

example : pkt_bin_read (pkt_bin_write (ascii "hi")) = .ok (some [104, 105], []) := by decide
example : pkt_bin_read pktEndB = .ok (none, []) := by decide
example : pkt_text_read (pkt_text_write (ascii "version=2")) = .ok (some (ascii "version=2"), []) := by
  decide

/-! ### Payload streams (`util.rs`) -/

/-- Saturating addition `u64::saturating_add` (also used for the usize-to-u64 counters). -/
def satAdd (a b : Nat) : Nat := min (a + b) (2 ^ 64 - 1)

/-- From `util.rs`, `WritePkt`: buffer of yet-unframed bytes, the borrowed
output sink (the session output), and the observability counter. -/
structure WritePktState where
  buffer : List Nat
  out : List Nat
  written : Nat
deriving DecidableEq, Repr

/-- The method `WritePkt::flush_buf`: frame the buffered bytes onto the sink, count
them, clear the buffer. -/
def writePkt_flushBuf (w : WritePktState) : WritePktState :=
  { buffer := [], out := w.out ++ pkt_bin_write w.buffer,
    written := satAdd w.written w.buffer.length }

/-- The method `<WritePkt as Write>::flush`: `flush_buf` then the underlying sink's
`flush` (a no-op on a byte list). -/
def writePkt_flush (w : WritePktState) : WritePktState := writePkt_flushBuf w

/-- The `while buf.len() > 0` loop of `<WritePkt as Write>::write`: move
`min(MAX_PKT_SIZE - buffer.len(), buf.len())` bytes into the buffer and
flush it whenever it reaches exactly `MAX_PKT_SIZE`.  Each round moves at
least one byte whenever `buffer.len() < MAX_PKT_SIZE` (an invariant of
`WritePkt`), so fuel `buf.length + 1` always suffices; the fuel-0 case is
unreachable from `writePkt_write`. -/
def writeLoop : Nat → WritePktState → List Nat → WritePktState
  | 0, w, _ => w
  | fuel + 1, w, buf =>
    match buf with
    | [] => w
    | _ :: _ =>
      let t := min (MAX_PKT_SIZE - w.buffer.length) buf.length
      let w2 : WritePktState := { w with buffer := w.buffer ++ buf.take t }
      if w2.buffer.length = MAX_PKT_SIZE then
        writeLoop fuel (writePkt_flushBuf w2) (buf.drop t)
      else
        writeLoop fuel w2 (buf.drop t)

/-- The method `<WritePkt as Write>::write` (the returned byte count is `buf.length`
and is not modelled). -/
def writePkt_write (w : WritePktState) (buf : List Nat) : WritePktState :=
  if buf.length = 0 then w else writeLoop (buf.length + 1) w buf

/-- The impl `Drop for WritePkt`: dropping with buffered bytes is a panic. -/
def dropWritePkt (w : WritePktState) : Except RunErr WritePktState :=
  if w.buffer = [] then .ok w
  else .error (.panic (ascii "WritePkt was not flushed before drop"))

/-- From `util.rs`, `ReadPktUntilFlush`: the borrowed input stream, the
observability counter, the current frame buffer with its read offset, and
the `eof` flag (set once the terminating flush frame has been consumed). -/
structure ReadPktState where
  input : List Nat
  read_bytes : Nat
  buffer : List Nat
  offset : Nat
  eof : Bool
deriving DecidableEq, Repr

/-- The constructor `ReadPktUntilFlush::new`. -/
def mkReader (input : List Nat) : ReadPktState :=
  { input := input, read_bytes := 0, buffer := [], offset := 0, eof := false }

/-- The predicate `ReadPktUntilFlush::finished`. -/
def ReadPktState.finished (st : ReadPktState) : Bool := st.eof

/-- The method `<ReadPktUntilFlush as Read>::read` with a caller buffer of size `n`:
at end-of-stream return no bytes; with an exhausted frame buffer pull the
next frame (a flush sets `eof`); otherwise copy from `buffer[offset..]`.
The source `assert!` that `pkt_bin_read` never returns an empty payload is
modelled as a panic branch (it is provably unreachable). -/
def readPkt (st : ReadPktState) (n : Nat) : Except RunErr (List Nat × ReadPktState) :=
  if st.eof then .ok ([], st)
  else if st.buffer.drop st.offset = [] then
    match pkt_bin_read st.input with
    | .error e => .error e
    | .ok (none, rest) => .ok ([], { st with input := rest, eof := true })
    | .ok (some p, rest) =>
      if p = [] then .error (.panic (ascii "pkt_bin_read never returns empty buffer"))
      else
        let k := min p.length n
        .ok (p.take k, { st with input := rest, buffer := p, offset := k,
                                 read_bytes := satAdd st.read_bytes k })
  else
    let data := st.buffer.drop st.offset
    let k := min data.length n
    .ok (data.take k, { st with offset := st.offset + k,
                                read_bytes := satAdd st.read_bytes k })

/-- The helper `std::io::Read::read_exact` with a 1-byte buffer on a
`ReadPktUntilFlush`: one `read` call either yields the byte or yields zero
bytes, which `read_exact` reports as `UnexpectedEof`. -/
def readExact1 (st : ReadPktState) : Except RunErr ReadPktState :=
  match readPkt st 1 with
  | .error e => .error e
  | .ok (bytes, st2) => if bytes.length = 1 then .ok st2 else .error .eof

/-- A client that repeatedly calls `read` with buffer sizes
`sizes 0, sizes 1, ...` until `finished()` holds, accumulating the bytes
read.  The loop is driven by fuel; `RunErr.fuel` is a model artifact
(enough fuel is always supplied in the theorems below). -/
def readUntilFinished (sizes : Nat → Nat) : Nat → ReadPktState → List Nat →
    Except RunErr (List Nat)
  | 0, st, acc => if st.eof then .ok acc else .error .fuel
  | fuel + 1, st, acc =>
    if st.eof then .ok acc
    else
      match readPkt st (sizes 0) with
      | .error e => .error e
      | .ok (chunk, st2) => readUntilFinished (fun i => sizes (i + 1)) fuel st2 (acc ++ chunk)


/-! ### Processor interface (`processor.rs`) and state machine (`lib.rs`) -/

/-- From `processor.rs`, `ProcessingType`. -/
inductive ProcessingType where
  | Clean
  | Smudge
deriving DecidableEq, Repr

/-- The result of one `Processor` call: `anyhow::Result` success or error,
or a Rust panic (the default `schedule_process` / `get_scheduled`
implementations panic). -/
inductive ProcRes where
  | ok
  | err
  | panic (msg : List Nat)
deriving DecidableEq, Repr

/-- The `Processor` trait, modelled as a record of pure state transformers
on the stream handles the state machine lends out: `process` borrows the
bounded reader and the bounded writer, `schedule_process` only the reader,
`get_scheduled` only the writer.  `switch_to_wait` has no observable effect
on the modelled state and `get_available` is never called by the state
machine, so neither is modelled. -/
structure ProcModel where
  supports_processing : ProcessingType → Bool
  should_delay : List Nat → ProcessingType → Bool
  process : List Nat → ProcessingType → ReadPktState → WritePktState →
    ProcRes × ReadPktState × WritePktState
  schedule_process : List Nat → ProcessingType → ReadPktState → ProcRes × ReadPktState
  get_scheduled : List Nat → ProcessingType → WritePktState → ProcRes × WritePktState

/-- The no-op `impl Processor for ()`: every default method.  `process`
returns the `parse_error!("processing is not supported")` error without
touching the streams; the delayed-mode methods panic. -/
def noopProc : ProcModel where
  supports_processing := fun _ => false
  should_delay := fun _ _ => false
  process := fun _ _ r w => (.err, r, w)
  schedule_process := fun _ _ r => (.panic (ascii "delayed processing is not implemented"), r)
  get_scheduled := fun _ _ w => (.panic (ascii "delayed processing is not implemented"), w)

/-- How one clean/smudge dispatch leaves the command loop: continue reading
commands from the remaining input, or `return Ok(())` ending the session. -/
inductive DispatchOutcome where
  | cont (rest : List Nat)
  | term
deriving DecidableEq, Repr

/-- From `lib.rs` line 178, `assert!(process_input.finished())`, followed by the
next loop iteration: the reader must have consumed its payload up to the
flush. -/
def finishDispatch (r : ReadPktState) (out : List Nat) :
    Except RunErr DispatchOutcome × List Nat :=
  if r.finished then (.ok (.cont r.input), out)
  else (.error (.panic (ascii "assertion failed: process_input.finished()")), out)

/-- From `lib.rs` lines 99–179: one clean/smudge request dispatch.  The payload
is wrapped in a bounded reader; then either delayed delivery
(`waiting_for_blobs`), scheduling (`can-delay=1` and `should_delay`), or
inline processing.  Tracing spans are ignored.  Note the source's delayed
delivery path: `read_exact` of one byte is *expected to succeed* and its
error is mapped to `parse_error!("delayed blob should have no data")`. -/
def requestDispatch (p : ProcModel) (waiting : Bool) (ty : ProcessingType)
    (pathname : List Nat) (can_delay : Bool) (input out : List Nat) :
    Except RunErr DispatchOutcome × List Nat :=
  let r0 := mkReader input
  if waiting then
    match readExact1 r0 with
    | .error _ => (.error (.parse (ascii "delayed blob should have no data")), out)
    | .ok r1 =>
      if r1.finished = false then
        (.error (.panic (ascii "assertion failed: process_input.finished()")), out)
      else
        let out1 := out ++ pkt_text_write (ascii "status=success") ++ pktEndB
        let w0 : WritePktState := { buffer := [], out := out1, written := 0 }
        match p.get_scheduled pathname ty w0 with
        | (.panic m, w1) => (.error (.panic m), w1.out)
        | (.err, w1) =>
          let w2 := writePkt_flush w1
          match dropWritePkt w2 with
          | .error e => (.error e, w2.out)
          | .ok w3 =>
            (.ok .term, w3.out ++ pktEndB ++ pkt_text_write (ascii "status=error") ++ pktEndB)
        | (.ok, w1) =>
          let w2 := writePkt_flush w1
          match dropWritePkt w2 with
          | .error e => (.error e, w2.out)
          | .ok w3 => finishDispatch r1 (w3.out ++ pktEndB ++ pktEndB)
  else if can_delay && p.should_delay pathname ty then
    match p.schedule_process pathname ty r0 with
    | (.panic m, _) => (.error (.panic m), out)
    | (.err, _) => (.ok .term, out ++ pkt_text_write (ascii "status=error") ++ pktEndB)
    | (.ok, r1) => finishDispatch r1 (out ++ pkt_text_write (ascii "status=delayed") ++ pktEndB)
  else
    let out1 := out ++ pkt_text_write (ascii "status=success") ++ pktEndB
    let w0 : WritePktState := { buffer := [], out := out1, written := 0 }
    match p.process pathname ty r0 w0 with
    | (.panic m, _, w1) => (.error (.panic m), w1.out)
    | (.err, _, w1) =>
      let w2 := writePkt_flush w1
      match dropWritePkt w2 with
      | .error e => (.error e, w2.out)
      | .ok w3 =>
        (.ok .term, w3.out ++ pktEndB ++ pkt_text_write (ascii "status=error") ++ pktEndB)
    | (.ok, r1, w1) =>
      let w2 := writePkt_flush w1
      match dropWritePkt w2 with
      | .error e => (.error e, w2.out)
      | .ok w3 => finishDispatch r1 (w3.out ++ pktEndB ++ pktEndB)

/-- Fueled form of the capability-reading loop (`lib.rs` lines 54–61); each
iteration consumes at least 5 input bytes, so fuel `input.length + 1`
always suffices. -/
def capsLoopF : Nat → List Nat → Bool → Bool → Bool →
    Except RunErr ((Bool × Bool × Bool) × List Nat)
  | 0, _, _, _, _ => .error .fuel
  | f + 1, input, filter, smudge, delay =>
    match pkt_text_read input with
    | .error e => .error e
    | .ok (none, rest) => .ok ((filter, smudge, delay), rest)
    | .ok (some command, rest) =>
      if command = ascii "capability=clean" then capsLoopF f rest true smudge delay
      else if command = ascii "capability=smudge" then capsLoopF f rest filter true delay
      else if command = ascii "capability=delay" then capsLoopF f rest filter smudge true
      else capsLoopF f rest filter smudge delay

/-- The capability-reading loop of `communicate_internal`. -/
def capsLoop (input : List Nat) (filter smudge delay : Bool) :
    Except RunErr ((Bool × Bool × Bool) × List Nat) :=
  capsLoopF (input.length + 1) input filter smudge delay

/-- Fueled form of the command-block parse loop (`lib.rs` lines 76–87):
read text frames until a flush, recording the last `command=`, the last
`pathname=` and whether `can-delay=1` appeared.  Each iteration consumes at
least 5 input bytes, so fuel `input.length + 1` always suffices. -/
def blockLoopF : Nat → List Nat → Option (List Nat) → Option (List Nat) → Bool →
    Except RunErr (Option (List Nat) × Option (List Nat) × Bool × List Nat)
  | 0, _, _, _, _ => .error .fuel
  | f + 1, input, command, pathname, can_delay =>
    match pkt_text_read input with
    | .error e => .error e
    | .ok (none, rest) => .ok (command, pathname, can_delay, rest)
    | .ok (some t, rest) =>
      if (ascii "command=").isPrefixOf t then
        blockLoopF f rest (some (t.drop (ascii "command=").length)) pathname can_delay
      else if (ascii "pathname=").isPrefixOf t then
        blockLoopF f rest command (some (t.drop (ascii "pathname=").length)) can_delay
      else if t = ascii "can-delay=1" then
        blockLoopF f rest command pathname true
      else blockLoopF f rest command pathname can_delay

/-- The command-block parse loop of `communicate_internal`. -/
def blockLoop (input : List Nat) (command pathname : Option (List Nat)) (can_delay : Bool) :
    Except RunErr (Option (List Nat) × Option (List Nat) × Bool × List Nat) :=
  blockLoopF (input.length + 1) input command pathname can_delay

/-- The main command loop of `communicate_internal` (`lib.rs` lines
75–186).  The Rust loop is unbounded, so it takes explicit fuel (one unit
per command block); `RunErr.fuel` is the model artifact for running out. -/
def commandLoop (p : ProcModel) : Nat → Bool → List Nat → List Nat →
    Except RunErr Unit × List Nat
  | 0, _, _, out => (.error .fuel, out)
  | fuel + 1, waiting, input, out =>
    match blockLoop input none none false with
    | .error e => (.error e, out)
    | .ok (cmdO, pathO, can_delay, rest) =>
      match cmdO with
      | none => (.error (.parse (ascii "missing command")), out)
      | some command =>
        if command = ascii "clean" ∨ command = ascii "smudge" then
          let ty := if command = ascii "clean" then ProcessingType.Clean
                    else ProcessingType.Smudge
          match pathO with
          | none => (.error (.parse (ascii "missing pathname")), out)
          | some pathname =>
            match requestDispatch p waiting ty pathname can_delay rest out with
            | (.error e, out2) => (.error e, out2)
            | (.ok .term, out2) => (.ok (), out2)
            | (.ok (.cont rest2), out2) => commandLoop p fuel waiting rest2 out2
        else if command = ascii "list_available_blobs" then
          -- `self.0.switch_to_wait()` has no observable effect in the model
          commandLoop p fuel true rest out
        else (.error (.parse (ascii "unknown command: " ++ command)), out)

/-- From `lib.rs`, `GitFilterServer::communicate_internal`: check the client
hello, emit the server hello, negotiate capabilities, then run the command
loop.  Returns the session result together with all bytes written to the
output sink. -/
def communicate_internal (p : ProcModel) (fuel : Nat) (input : List Nat) :
    Except RunErr Unit × List Nat :=
  match pkt_text_read input with
  | .error e => (.error e, [])
  | .ok (t1, rest1) =>
    if t1 ≠ some (ascii "git-filter-client") then (.error (.parse (ascii "bad prelude")), [])
    else
      match pkt_text_read rest1 with
      | .error e => (.error e, [])
      | .ok (t2, rest2) =>
        if t2 ≠ some (ascii "version=2") then (.error (.parse (ascii "unknown version")), [])
        else
          match pkt_text_read rest2 with
          | .error e => (.error e, [])
          | .ok (t3, rest3) =>
            if t3 ≠ none then
              (.error (.parse (ascii "unexpected text after client hello")), [])
            else
              let out1 := pkt_text_write (ascii "git-filter-server") ++
                pkt_text_write (ascii "version=2") ++ pktEndB
              match capsLoop rest3 false false false with
              | .error e => (.error e, out1)
              | .ok ((filter, smudge, delay), rest4) =>
                let out2 := out1 ++
                  (if filter && p.supports_processing .Clean then
                    pkt_text_write (ascii "capability=clean") else []) ++
                  (if smudge && p.supports_processing .Smudge then
                    pkt_text_write (ascii "capability=smudge") else []) ++
                  (if delay then pkt_text_write (ascii "capability=delay") else []) ++
                  pktEndB
                commandLoop p fuel false rest4 out2

/-- From `lib.rs`, `GitFilterServer::communicate`: `UnexpectedEof` from the
internal session is reported as success ("Communication is done, not a
error"); every other error propagates. -/
def communicate (p : ProcModel) (fuel : Nat) (input : List Nat) :
    Except RunErr Unit × List Nat :=
  match communicate_internal p fuel input with
  | (.ok (), out) => (.ok (), out)
  | (.error .eof, out) => (.ok (), out)
  | (.error e, out) => (.error e, out)

/-! ### Codec lemmas -/

theorem fromHex_toHex : ∀ d < 16, fromHexDigit (toHexDigit d) = some d := by decide

theorem chunksGo_nil (f : Nat) : chunksGo f [] = [] := by cases f <;> rfl

theorem chunksGo_congr : ∀ n f₁ f₂ (l : List Nat), l.length ≤ n → l.length ≤ f₁ →
    l.length ≤ f₂ → chunksGo f₁ l = chunksGo f₂ l := by
  intro n
  induction n with
  | zero =>
    intro f₁ f₂ l h _ _
    have : l = [] := List.eq_nil_of_length_eq_zero (by omega)
    subst this; rw [chunksGo_nil, chunksGo_nil]
  | succ m ih =>
    intro f₁ f₂ l h hf₁ hf₂
    match l, f₁, f₂ with
    | [], f₁, f₂ => rw [chunksGo_nil, chunksGo_nil]
    | x :: xs, g₁ + 1, g₂ + 1 =>
      simp only [chunksGo]
      congr 1
      have hd : ((x :: xs).drop 65512).length ≤ m := by
        simp only [List.length_drop, List.length_cons] at *
        omega
      refine ih _ _ _ hd ?_ ?_ <;>
        simp only [List.length_drop, List.length_cons] at * <;> omega
    | x :: xs, 0, f₂ => simp at hf₁
    | x :: xs, g₁ + 1, 0 => simp at hf₂

theorem chunks65512_cons (x : Nat) (xs : List Nat) :
    chunks65512 (x :: xs) = (x :: xs).take 65512 :: chunks65512 ((x :: xs).drop 65512) := by
  simp only [chunks65512, List.length_cons, chunksGo]
  congr 1
  exact chunksGo_congr ((x :: xs).drop 65512).length _ _ _ le_rfl
    (by simp [List.length_drop]) le_rfl

theorem chunks65512_flatten : ∀ n (l : List Nat), l.length ≤ n →
    (chunks65512 l).flatten = l := by
  intro n
  induction n with
  | zero =>
    intro l h
    have : l = [] := List.eq_nil_of_length_eq_zero (by omega)
    subst this; rfl
  | succ m ih =>
    intro l h
    match l with
    | [] => rfl
    | x :: xs =>
      rw [chunks65512_cons]
      simp only [List.flatten_cons]
      rw [ih _ (by simp only [List.length_drop, List.length_cons] at *; omega)]
      exact List.take_append_drop _ _

theorem chunks65512_mem : ∀ n (l : List Nat), l.length ≤ n →
    ∀ p ∈ chunks65512 l, 1 ≤ p.length ∧ p.length ≤ 65512 := by
  intro n
  induction n with
  | zero =>
    intro l h p hp
    have : l = [] := List.eq_nil_of_length_eq_zero (by omega)
    subst this; simp [chunks65512, chunksGo] at hp
  | succ m ih =>
    intro l h p hp
    match l with
    | [] => simp [chunks65512, chunksGo] at hp
    | x :: xs =>
      rw [chunks65512_cons, List.mem_cons] at hp
      rcases hp with hp | hp
      · subst hp
        constructor
        · simp only [List.length_take, List.length_cons]; omega
        · simp only [List.length_take]; omega
      · have hd : ((x :: xs).drop 65512).length ≤ m := by
          simp only [List.length_drop, List.length_cons] at *
          omega
        exact ih _ hd p hp

theorem chunks65512_single (l : List Nat) (h1 : 1 ≤ l.length) (h2 : l.length ≤ 65512) :
    chunks65512 l = [l] := by
  match l with
  | [] => simp at h1
  | x :: xs =>
    rw [chunks65512_cons, List.take_of_length_le h2, List.drop_eq_nil_of_le h2]
    rfl

theorem lenHex_digits_lt (L : Nat) :
    L / 4096 % 16 < 16 ∧ L / 256 % 16 < 16 ∧ L / 16 % 16 < 16 ∧ L % 16 < 16 := by
  refine ⟨?_, ?_, ?_, ?_⟩ <;> exact Nat.mod_lt _ (by omega)

/-- Decoding the four header digits of `lenHex L` recovers `L` for any
16-bit `L`. -/
theorem lenHex_decode (L : Nat) (h : L < 65536) :
    (L / 4096 % 16 * 16 + L / 256 % 16) * 256 + (L / 16 % 16 * 16 + L % 16) = L := by
  omega

/-- Decoding with `pkt_bin_read` on a well-formed frame (header `lenHex (|p| + 4)`,
payload `p` with `1 ≤ |p| ≤ 65516`) yields the payload and the rest. -/
theorem pkt_bin_read_frame (p rest : List Nat) (h1 : 1 ≤ p.length) (h2 : p.length ≤ 65516) :
    pkt_bin_read (lenHex (p.length + 4) ++ (p ++ rest)) = .ok (some p, rest) := by
  obtain ⟨e1, e2, e3, e4⟩ := lenHex_digits_lt (p.length + 4)
  simp only [lenHex, List.cons_append, List.nil_append, pkt_bin_read,
    fromHex_toHex _ e1, fromHex_toHex _ e2, fromHex_toHex _ e3, fromHex_toHex _ e4]
  rw [lenHex_decode _ (by omega)]
  have hne : ¬(p.length + 4 = 0) := by omega
  rw [if_neg hne]
  have hlen2 : (p.length + 4 + (2 ^ 64 - 4)) % 2 ^ 64 = p.length := by
    have h64 : p.length + 4 + (2 ^ 64 - 4) = p.length + 2 ^ 64 := by
      have : (4 : Nat) ≤ 2 ^ 64 := by norm_num
      omega
    rw [h64, Nat.add_mod_right, Nat.mod_eq_of_lt (by
      have : (65516 : Nat) < 2 ^ 64 := by norm_num
      omega)]
  simp only [hlen2, MAX_PKT_SIZE]
  rw [if_neg (by omega), if_neg (by omega),
    if_pos (by simp only [List.length_append]; omega)]
  rw [List.take_left, List.drop_left]

/-- Decoding with `pkt_bin_read` on the flush sentinel `0000` yields `none`. -/
theorem pkt_bin_read_flush (rest : List Nat) :
    pkt_bin_read (pktEndB ++ rest) = .ok (none, rest) := rfl

/-- The wire bytes of one text frame holding `t` (a header, the text, and
the trailing `0x0A`), as produced by `pkt_text_write` for `|t| + 1 ≤ 65512`. -/
def textWire (t : List Nat) : List Nat := lenHex (t.length + 5) ++ (t ++ [10])

theorem pkt_text_write_eq_textWire (t : List Nat) (h : t.length + 1 ≤ 65512) :
    pkt_text_write t = textWire t := by
  unfold pkt_text_write pkt_bin_write textWire
  rw [chunks65512_single (t ++ [10]) (by simp) (by simp; omega)]
  simp only [List.flatMap_cons, List.flatMap_nil, List.append_nil, List.length_append,
    List.length_cons, List.length_nil]
  congr 2
  omega

/-- Decoding with `pkt_text_read` on a well-formed text frame yields the text. -/
theorem pkt_text_read_frame (t rest : List Nat) (h : t.length + 1 ≤ 65516)
    (hv : isValidUtf8 t = true) :
    pkt_text_read (textWire t ++ rest) = .ok (some t, rest) := by
  unfold pkt_text_read textWire
  have hfr := pkt_bin_read_frame (t ++ [10]) rest (by simp) (by simp; omega)
  simp only [List.length_append, List.length_cons, List.length_nil] at hfr
  have harg : t.length + 1 + 4 = t.length + 5 := by omega
  rw [harg] at hfr
  rw [List.append_assoc, hfr]
  simp [hv]

/-- A successful non-flush `pkt_bin_read` consumes at least 5 bytes and
returns a nonempty payload. -/
theorem pkt_bin_read_consumes (input s r : List Nat)
    (h : pkt_bin_read input = .ok (some s, r)) :
    r.length + 5 ≤ input.length ∧ 1 ≤ s.length := by
  match input with
  | [] => simp [pkt_bin_read] at h
  | [_] => simp [pkt_bin_read] at h
  | [_, _] => simp [pkt_bin_read] at h
  | [_, _, _] => simp [pkt_bin_read] at h
  | h1 :: h2 :: h3 :: h4 :: rest =>
    simp only [pkt_bin_read] at h
    rcases e1 : fromHexDigit h1 with _ | d1 <;> rw [e1] at h <;> try simp at h
    rcases e2 : fromHexDigit h2 with _ | d2 <;> rw [e2] at h <;> try simp at h
    rcases e3 : fromHexDigit h3 with _ | d3 <;> rw [e3] at h <;> try simp at h
    rcases e4 : fromHexDigit h4 with _ | d4 <;> rw [e4] at h <;> try simp at h
    split at h
    · simp at h
    · split at h
      · simp at h
      · split at h
        · simp at h
        · split at h
          · rename_i len0 lmax lzero lle
            simp only [Except.ok.injEq, Prod.mk.injEq, Option.some.injEq] at h
            obtain ⟨hs, hr⟩ := h
            subst hs; subst hr
            constructor
            · simp only [List.length_drop, List.length_cons]
              omega
            · simp only [List.length_take]
              omega
          · simp at h

/-- A successful non-flush `pkt_text_read` consumes at least 5 bytes. -/
theorem pkt_text_read_consumes (input t r : List Nat)
    (h : pkt_text_read input = .ok (some t, r)) :
    r.length + 5 ≤ input.length := by
  unfold pkt_text_read at h
  rcases hb : pkt_bin_read input with e | ⟨_ | s, rest⟩ <;> simp only [hb] at h
  · simp at h
  · simp at h
  · split at h
    · split at h
      · simp only [Except.ok.injEq, Prod.mk.injEq, Option.some.injEq] at h
        obtain ⟨_, hr⟩ := h
        subst hr
        exact (pkt_bin_read_consumes input s _ hb).1
      · simp at h
    · simp at h

/-- The block-parse loop ignores its fuel as long as the fuel exceeds the
input length. -/
theorem blockLoopF_congr : ∀ n f₁ f₂ (input : List Nat) c pth cd, input.length ≤ n →
    input.length < f₁ → input.length < f₂ →
    blockLoopF f₁ input c pth cd = blockLoopF f₂ input c pth cd := by
  intro n
  induction n with
  | zero =>
    intro f₁ f₂ input c pth cd h hf₁ hf₂
    match f₁, f₂ with
    | g₁ + 1, g₂ + 1 =>
      simp only [blockLoopF]
      rcases ht : pkt_text_read input with e | ⟨_ | t, rest⟩
      · rfl
      · rfl
      · have := pkt_text_read_consumes input t rest ht
        omega
  | succ m ih =>
    intro f₁ f₂ input c pth cd h hf₁ hf₂
    match f₁, f₂ with
    | g₁ + 1, g₂ + 1 =>
      simp only [blockLoopF]
      rcases ht : pkt_text_read input with e | ⟨_ | t, rest⟩
      · rfl
      · rfl
      · have hcons := pkt_text_read_consumes input t rest ht
        have hr : rest.length ≤ m := by omega
        have hr₁ : rest.length < g₁ := by omega
        have hr₂ : rest.length < g₂ := by omega
        simp only []
        split
        · exact ih g₁ g₂ rest _ _ _ hr hr₁ hr₂
        · split
          · exact ih g₁ g₂ rest _ _ _ hr hr₁ hr₂
          · split
            · exact ih g₁ g₂ rest _ _ _ hr hr₁ hr₂
            · exact ih g₁ g₂ rest _ _ _ hr hr₁ hr₂

/-- Parsing a command block that starts with a well-formed text frame:
one step of the loop. -/
theorem blockLoop_cons (t rest : List Nat) (c pth : Option (List Nat)) (cd : Bool)
    (h : t.length + 1 ≤ 65516) (hv : isValidUtf8 t = true) :
    blockLoop (textWire t ++ rest) c pth cd =
      if (ascii "command=").isPrefixOf t then
        blockLoop rest (some (t.drop (ascii "command=").length)) pth cd
      else if (ascii "pathname=").isPrefixOf t then
        blockLoop rest c (some (t.drop (ascii "pathname=").length)) cd
      else if t = ascii "can-delay=1" then
        blockLoop rest c pth true
      else blockLoop rest c pth cd := by
  have hlen : (textWire t ++ rest).length = t.length + 5 + rest.length := by
    simp [textWire, lenHex]
    omega
  unfold blockLoop
  rw [hlen]
  have hstep : t.length + 5 + rest.length + 1 = (t.length + 5 + rest.length) + 1 := rfl
  rw [hstep]
  simp only [blockLoopF, pkt_text_read_frame t rest (by omega) hv]
  have hc : ∀ cc pp dd, blockLoopF (t.length + 5 + rest.length) rest cc pp dd =
      blockLoopF (rest.length + 1) rest cc pp dd := by
    intro cc pp dd
    exact blockLoopF_congr rest.length _ _ rest cc pp dd le_rfl (by omega) (by omega)
  split
  · exact hc _ _ _
  · split
    · exact hc _ _ _
    · split
      · exact hc _ _ _
      · exact hc _ _ _

/-- Parsing a command block that starts with the flush sentinel ends the
loop. -/
theorem blockLoop_flush (rest : List Nat) (c pth : Option (List Nat)) (cd : Bool) :
    blockLoop (pktEndB ++ rest) c pth cd = .ok (c, pth, cd, rest) := rfl

/-- A list is a `isPrefixOf` itself extended on the right. -/
theorem isPrefixOf_append_self : ∀ (a b : List Nat), a.isPrefixOf (a ++ b) = true := by
  intro a b
  induction a with
  | nil => simp [List.isPrefixOf]
  | cons x xs ih => simp [List.isPrefixOf, ih]

/-! ### Session wires used in concrete runs -/

/-- The well-formed client hello block. -/
def helloWire : List Nat :=
  textWire (ascii "git-filter-client") ++ (textWire (ascii "version=2") ++ pktEndB)

/-- The server hello block emitted in response. -/
def helloOut : List Nat :=
  pkt_text_write (ascii "git-filter-server") ++ pkt_text_write (ascii "version=2") ++ pktEndB

/-- Literal bytes of the request keys (used to reduce `isPrefixOf`). -/
theorem ascii_command : ascii "command=" = [99, 111, 109, 109, 97, 110, 100, 61] := by decide

theorem ascii_pathname : ascii "pathname=" =
    [112, 97, 116, 104, 110, 97, 109, 101, 61] := by decide

/-- The key `command=` is never a prefix of a `pathname=` entry. -/
theorem cmd_not_prefix_pathname (x : List Nat) :
    (ascii "command=").isPrefixOf (ascii "pathname=" ++ x) = false := by
  rw [ascii_command, ascii_pathname]
  simp [List.isPrefixOf]

/-! ### Claim theorems -/

/-- Claim C1: (code evaluation).  For a clean/smudge request received while
`waiting_for_blobs` is true, the code does the *opposite* of the claim:
with an empty payload (immediate flush) the 1-byte `read_exact` fails and
its error is mapped to the `ParseError` "delayed blob should have no data",
so the server raises a protocol error rather than proceeding; with a
payload of at least one byte the `read_exact` succeeds and the immediately
following `assert!(process_input.finished())` fails, i.e. the server
panics.  The third conjunct evaluates a whole session (hello, empty
capability block, `list_available_blobs`, then a collection request with an
empty payload) to the same parse error. -/
theorem C1_delayed_delivery_code_eval (p : ProcModel) (ty : ProcessingType)
    (pathname : List Nat) (can_delay : Bool) (rest out : List Nat) (b : Nat) :
    requestDispatch p true ty pathname can_delay (pktEndB ++ rest) out =
      (.error (.parse (ascii "delayed blob should have no data")), out) ∧
    requestDispatch p true ty pathname can_delay (lenHex 5 ++ ([b] ++ rest)) out =
      (.error (.panic (ascii "assertion failed: process_input.finished()")), out) ∧
    communicate_internal noopProc 2
      (helloWire ++ (pktEndB ++ (textWire (ascii "command=list_available_blobs") ++
        (pktEndB ++ (textWire (ascii "command=clean") ++ (textWire (ascii "pathname=x") ++
        (pktEndB ++ pktEndB))))))) =
      (.error (.parse (ascii "delayed blob should have no data")), helloOut ++ pktEndB) := by
  refine ⟨rfl, ?_, by set_option maxRecDepth 10000 in decide⟩
  unfold requestDispatch readExact1 readPkt mkReader
  norm_num [pkt_bin_read, fromHexDigit, lenHex, toHexDigit, MAX_PKT_SIZE, satAdd,
    ReadPktState.finished]

/-- Claim C2: (counterexample).  An input that ends in the middle of a frame
(here: after only 2 of the 4 header bytes) makes `communicate_internal`
fail with `UnexpectedEof`, yet the top-level `communicate` reports success,
contradicting the claim that a mid-frame end-of-stream is reported as an
error. -/
theorem C2_mid_frame_eof_counterexample :
    (communicate_internal noopProc 1 [48, 48]).1 = .error .eof ∧
    communicate noopProc 1 [48, 48] = (.ok (), []) := by
  set_option maxRecDepth 10000 in decide

/-- Claim C2: (amended).  `communicate` returns success exactly when the
internal session either completes or fails with `UnexpectedEof` — whether
the end-of-stream happened at a frame boundary or in the middle of a frame;
all other errors propagate to the caller, and the emitted bytes are
unchanged. -/
theorem C2_communicate_eof_amended (p : ProcModel) (fuel : Nat) (input : List Nat) :
    (communicate p fuel input).2 = (communicate_internal p fuel input).2 ∧
    ((communicate p fuel input).1 = .ok () ↔
      (communicate_internal p fuel input).1 = .ok () ∨
      (communicate_internal p fuel input).1 = .error .eof) := by
  unfold communicate
  rcases h : communicate_internal p fuel input with ⟨r, out⟩
  rcases r with e | u
  · cases e <;> simp
  · simp

/-- Claim C3: (counterexample).  `pkt_bin_write` does not produce exactly one
frame for every payload of length at most 65,516: the empty sequence
produces no output at all, and a 65,513-byte sequence is split at 65,512
(`MAX_PKT_SIZE - 4`) into two frames, so decoding its output returns only
the first 65,512 bytes. -/
theorem C3_chunking_counterexample :
    pkt_bin_write [] = [] ∧
    pkt_bin_write (List.replicate 65513 0) =
      lenHex 65516 ++ (List.replicate 65512 0 ++ (lenHex 5 ++ [0])) ∧
    pkt_bin_read (pkt_bin_write (List.replicate 65513 0)) =
      .ok (some (List.replicate 65512 0), lenHex 5 ++ [0]) := by
  have h1 : List.replicate 65513 (0 : Nat) = 0 :: List.replicate 65512 0 := by
    rw [show (65513 : Nat) = 65512 + 1 from rfl, List.replicate_succ]
  have hch : chunks65512 (List.replicate 65513 (0 : Nat)) =
      [List.replicate 65512 0, [0]] := by
    rw [h1, chunks65512_cons, ← h1, List.take_replicate, List.drop_replicate,
      show min 65512 65513 = 65512 from rfl, show (65513 : Nat) - 65512 = 1 from rfl,
      show List.replicate 1 (0 : Nat) = [0] from rfl]
    rfl
  have hw : pkt_bin_write (List.replicate 65513 0) =
      lenHex 65516 ++ (List.replicate 65512 0 ++ (lenHex 5 ++ [0])) := by
    unfold pkt_bin_write
    rw [hch]
    simp only [List.flatMap_cons, List.flatMap_nil, List.append_nil, List.length_replicate,
      List.length_cons, List.length_nil, List.append_assoc]
    rw [show ((65512 : Nat) % 2 ^ 16 + 4) % 2 ^ 16 = 65516 from rfl,
      show ((1 : Nat) % 2 ^ 16 + 4) % 2 ^ 16 = 5 from rfl]
  refine ⟨rfl, hw, ?_⟩
  rw [hw]
  have hfr := pkt_bin_read_frame (List.replicate 65512 0) (lenHex 5 ++ [0])
    (by rw [List.length_replicate]; omega) (by rw [List.length_replicate]; omega)
  rw [List.length_replicate, show (65512 : Nat) + 4 = 65516 from rfl] at hfr
  exact hfr

/-- Claim C3: (amended).  For every byte sequence `b` with
`1 ≤ |b| ≤ 65512 = MAX_PKT_SIZE - 4`, `pkt_bin_write` produces exactly one
frame (one chunk), namely `lenHex (|b| + 4) ++ b`, and `pkt_bin_read` on
that output recovers `b` exactly, leaving any following bytes unread. -/
theorem C3_single_frame_roundtrip_amended (b rest : List Nat)
    (h1 : 1 ≤ b.length) (h2 : b.length ≤ 65512) :
    chunks65512 b = [b] ∧
    pkt_bin_write b = lenHex (b.length + 4) ++ b ∧
    pkt_bin_read (pkt_bin_write b ++ rest) = .ok (some b, rest) := by
  have hc := chunks65512_single b h1 h2
  have hw : pkt_bin_write b = lenHex (b.length + 4) ++ b := by
    unfold pkt_bin_write
    rw [hc]
    simp only [List.flatMap_cons, List.flatMap_nil, List.append_nil]
    congr 2
    omega
  refine ⟨hc, hw, ?_⟩
  rw [hw, List.append_assoc]
  exact pkt_bin_read_frame b rest h1 (by omega)

/-- Claim C3: (witness for the amended round-trip at `b = "hi"`). -/
theorem C3_single_frame_roundtrip_amended_witness :
    chunks65512 [104, 105] = [[104, 105]] ∧
    pkt_bin_write [104, 105] = lenHex 6 ++ [104, 105] ∧
    pkt_bin_read (pkt_bin_write [104, 105] ++ [48]) = .ok (some [104, 105], [48]) :=
  C3_single_frame_roundtrip_amended [104, 105] [48] (by decide) (by decide)

/-- Claim C4: (counterexample).  A session whose first command block carries
`command=clean` but no `pathname=` entry is *not* dispatched: the state
machine fails with the `ParseError` "missing pathname". -/
theorem C4_missing_pathname_counterexample :
    communicate_internal noopProc 1
      (helloWire ++ (pktEndB ++ (textWire (ascii "command=clean") ++ pktEndB))) =
      (.error (.parse (ascii "missing pathname")), helloOut ++ pktEndB) := by
  set_option maxRecDepth 10000 in decide

/-- Claim C4: (amended).  In a command block the `command` key is mandatory
for every block, and for `clean`/`smudge` blocks the `pathname` key is
mandatory as well: whenever a block parses to `command=clean` or
`command=smudge` with no `pathname=` entry, the command loop fails with
`ParseError` "missing pathname" instead of dispatching. -/
theorem C4_pathname_mandatory_amended (p : ProcModel) (fuel : Nat) (waiting : Bool)
    (input out c : List Nat) (cd : Bool) (rest : List Nat)
    (hb : blockLoop input none none false = .ok (some c, none, cd, rest))
    (hc : c = ascii "clean" ∨ c = ascii "smudge") :
    commandLoop p (fuel + 1) waiting input out =
      (.error (.parse (ascii "missing pathname")), out) := by
  simp only [commandLoop, hb]
  rw [if_pos hc]

/-- Claim C4: (witness): a concrete `command=clean` block with no pathname. -/
theorem C4_pathname_mandatory_amended_witness :
    commandLoop noopProc 1 false (textWire (ascii "command=clean") ++ pktEndB) [] =
      (.error (.parse (ascii "missing pathname")), []) :=
  C4_pathname_mandatory_amended noopProc 0 false
    (textWire (ascii "command=clean") ++ pktEndB) [] (ascii "clean") false []
    (by set_option maxRecDepth 10000 in decide) (Or.inl rfl)

/-- Claim C6: (confirmed).  Any frame whose 4 hex header digits decode to a
total length of 1, 2, 3 or 4 makes `pkt_bin_read` fail with a `ParseError`
(for 1–3 the wrapping `len -= 4` produces a huge value caught by the
max-packet-size check; for 4 the zero-payload check fires); no payload is
returned. -/
theorem C6_short_length_header (h1 h2 h3 h4 d1 d2 d3 d4 : Nat) (rest : List Nat)
    (e1 : fromHexDigit h1 = some d1) (e2 : fromHexDigit h2 = some d2)
    (e3 : fromHexDigit h3 = some d3) (e4 : fromHexDigit h4 = some d4)
    (hlo : 1 ≤ (d1 * 16 + d2) * 256 + (d3 * 16 + d4))
    (hhi : (d1 * 16 + d2) * 256 + (d3 * 16 + d4) ≤ 4) :
    ∃ msg, pkt_bin_read (h1 :: h2 :: h3 :: h4 :: rest) = .error (.parse msg) := by
  simp only [pkt_bin_read, e1, e2, e3, e4]
  have hcase : (d1 * 16 + d2) * 256 + (d3 * 16 + d4) = 1 ∨
      (d1 * 16 + d2) * 256 + (d3 * 16 + d4) = 2 ∨
      (d1 * 16 + d2) * 256 + (d3 * 16 + d4) = 3 ∨
      (d1 * 16 + d2) * 256 + (d3 * 16 + d4) = 4 := by omega
  rcases hcase with h | h | h | h <;> rw [h]
  · exact ⟨ascii "max packet size exceeded", by norm_num [MAX_PKT_SIZE]⟩
  · exact ⟨ascii "max packet size exceeded", by norm_num [MAX_PKT_SIZE]⟩
  · exact ⟨ascii "max packet size exceeded", by norm_num [MAX_PKT_SIZE]⟩
  · exact ⟨ascii "packet size is zero", by norm_num [MAX_PKT_SIZE]⟩

/-- Claim C6: (witness at the header `0001`). -/
theorem C6_short_length_header_witness :
    ∃ msg, pkt_bin_read [48, 48, 48, 49] = .error (.parse msg) :=
  C6_short_length_header 48 48 48 49 0 0 0 1 []
    (by decide) (by decide) (by decide) (by decide) (by decide) (by decide)

/-- Claim C10: (confirmed).  When a command block repeats keys — here
`command=` and `pathname=` each twice — parsing raises no error and the
*last* occurrence of each key wins: the block is dispatched with `c2` and
`p2`. -/
theorem C10_last_key_wins (c1 p1 c2 p2 rest : List Nat)
    (hl1 : (ascii "command=" ++ c1).length + 1 ≤ 65516)
    (hv1 : isValidUtf8 (ascii "command=" ++ c1) = true)
    (hl2 : (ascii "pathname=" ++ p1).length + 1 ≤ 65516)
    (hv2 : isValidUtf8 (ascii "pathname=" ++ p1) = true)
    (hl3 : (ascii "command=" ++ c2).length + 1 ≤ 65516)
    (hv3 : isValidUtf8 (ascii "command=" ++ c2) = true)
    (hl4 : (ascii "pathname=" ++ p2).length + 1 ≤ 65516)
    (hv4 : isValidUtf8 (ascii "pathname=" ++ p2) = true) :
    blockLoop (textWire (ascii "command=" ++ c1) ++ (textWire (ascii "pathname=" ++ p1) ++
        (textWire (ascii "command=" ++ c2) ++ (textWire (ascii "pathname=" ++ p2) ++
        (pktEndB ++ rest))))) none none false = .ok (some c2, some p2, false, rest) := by
  rw [blockLoop_cons _ _ _ _ _ hl1 hv1]
  simp only [isPrefixOf_append_self, cmd_not_prefix_pathname, List.drop_left,
    if_true, ite_true, ite_false, Bool.false_eq_true, if_false]
  rw [blockLoop_cons _ _ _ _ _ hl2 hv2]
  simp only [isPrefixOf_append_self, cmd_not_prefix_pathname, List.drop_left,
    if_true, ite_true, ite_false, Bool.false_eq_true, if_false]
  rw [blockLoop_cons _ _ _ _ _ hl3 hv3]
  simp only [isPrefixOf_append_self, cmd_not_prefix_pathname, List.drop_left,
    if_true, ite_true, ite_false, Bool.false_eq_true, if_false]
  rw [blockLoop_cons _ _ _ _ _ hl4 hv4]
  simp only [isPrefixOf_append_self, cmd_not_prefix_pathname, List.drop_left,
    if_true, ite_true, ite_false, Bool.false_eq_true, if_false]
  exact blockLoop_flush rest _ _ _

/-- Claim C10: (witness): `command=clean`, `pathname=a`, `command=smudge`,
`pathname=b` parses to command `smudge` with pathname `b`. -/
theorem C10_last_key_wins_witness :
    blockLoop (textWire (ascii "command=" ++ ascii "clean") ++
        (textWire (ascii "pathname=" ++ ascii "a") ++
        (textWire (ascii "command=" ++ ascii "smudge") ++
        (textWire (ascii "pathname=" ++ ascii "b") ++
        (pktEndB ++ []))))) none none false =
      .ok (some (ascii "smudge"), some (ascii "b"), false, []) :=
  C10_last_key_wins (ascii "clean") (ascii "a") (ascii "smudge") (ascii "b") []
    (by decide) (by decide) (by decide) (by decide)
    (by decide) (by decide) (by decide) (by decide)

/-- A processor that schedules everything: `should_delay` is true and
`schedule_process` drains the payload with one `read` call (enough for an
empty payload). -/
def schedProc : ProcModel where
  supports_processing := fun _ => false
  should_delay := fun _ _ => true
  process := fun _ _ r w => (.err, r, w)
  schedule_process := fun _ _ r =>
    match readPkt r 1 with
    | .ok (_, r2) => (.ok, r2)
    | .error _ => (.err, r)
  get_scheduled := fun _ _ w => (.panic (ascii "delayed processing is not implemented"), w)

/-- A processor whose `should_delay` is true but whose `schedule_process`
fails without consuming any input. -/
def schedFailProc : ProcModel where
  supports_processing := fun _ => false
  should_delay := fun _ _ => true
  process := fun _ _ r w => (.err, r, w)
  schedule_process := fun _ _ r => (.err, r)
  get_scheduled := fun _ _ w => (.panic (ascii "delayed processing is not implemented"), w)

/-- A processor whose `should_delay` is true and whose `schedule_process`
succeeds without consuming any input. -/
def schedNoReadProc : ProcModel where
  supports_processing := fun _ => false
  should_delay := fun _ _ => true
  process := fun _ _ r w => (.err, r, w)
  schedule_process := fun _ _ r => (.ok, r)
  get_scheduled := fun _ _ w => (.panic (ascii "delayed processing is not implemented"), w)

/-- A processor whose `process` succeeds without consuming any input or
producing any output. -/
def okProc : ProcModel where
  supports_processing := fun _ => true
  should_delay := fun _ _ => false
  process := fun _ _ r w => (.ok, r, w)
  schedule_process := fun _ _ r => (.err, r)
  get_scheduled := fun _ _ w => (.err, w)

/-- Claim C9: (confirmed).  A clean/smudge request before the collection phase
(`waiting_for_blobs = false`) carrying `can-delay=1`, for which
`should_delay` answers true and `schedule_process` succeeds after draining
the payload, is answered by exactly one `status=delayed` frame and one
flush — no payload frames. -/
theorem C9_schedule_delayed_response (p : ProcModel) (ty : ProcessingType)
    (pathname rest out : List Nat) (r1 : ReadPktState)
    (hd : p.should_delay pathname ty = true)
    (hs : p.schedule_process pathname ty (mkReader rest) = (.ok, r1))
    (hf : r1.finished = true) :
    requestDispatch p false ty pathname true rest out =
      (.ok (.cont r1.input), out ++ pkt_text_write (ascii "status=delayed") ++ pktEndB) := by
  unfold requestDispatch finishDispatch
  rw [if_neg (by simp)]
  rw [if_pos (by simp [hd])]
  rw [hs]
  simp only [hf, ite_true]

/-- Claim C9: (witness): `schedProc` delays a request with an empty payload. -/
theorem C9_schedule_delayed_response_witness :
    requestDispatch schedProc false ProcessingType.Clean (ascii "x") true pktEndB [] =
      (.ok (.cont []),
        [] ++ pkt_text_write (ascii "status=delayed") ++ pktEndB) :=
  C9_schedule_delayed_response schedProc ProcessingType.Clean (ascii "x") pktEndB []
    { input := [], read_bytes := 0, buffer := [], offset := 0, eof := true }
    rfl (by decide) rfl

/-- Claim C5: (counterexample).  A Processor-failure exit path on which the
bounded reader is *not* checked: `schedFailProc.schedule_process` fails
without consuming the two-byte payload, and the dispatch terminates the
session cleanly (status=error envelope, outcome `term`, no assertion
failure), even though a fresh reader over that payload is not finished.
Under the claim this exit path would have to check the reader and fail the
internal invariant. -/
theorem C5_reader_unchecked_on_error_counterexample :
    requestDispatch schedFailProc false ProcessingType.Clean (ascii "a") true
        (lenHex 6 ++ ([104, 105] ++ pktEndB)) [] =
      (.ok .term, pkt_text_write (ascii "status=error") ++ pktEndB) ∧
    (schedFailProc.schedule_process (ascii "a") ProcessingType.Clean
        (mkReader (lenHex 6 ++ ([104, 105] ++ pktEndB)))).2.finished = false := by
  constructor
  · decide
  · rfl

/-- Claim C5: (amended).  The scoped-acquisition discipline holds only
partially: (1) on the *successful* inline exit the reader-finished
invariant is checked — if the Processor's `process` succeeds but leaves the
reader unfinished, the dispatch fails with the assertion panic (after the
writer was flushed and the two closing flushes were emitted); (2) likewise
on the successful scheduling exit; (3) on the Processor-*error* inline exit
the writer is still flushed — its buffered bytes are emitted as payload
frames before any later wire frame — but the session terminates without
checking the reader. -/
theorem C5_scoped_acquisition_amended (p : ProcModel) (ty : ProcessingType)
    (pathname rest out : List Nat) (r1 : ReadPktState) (w1 : WritePktState) :
    (p.process pathname ty (mkReader rest)
        { buffer := [], out := out ++ pkt_text_write (ascii "status=success") ++ pktEndB,
          written := 0 } = (.ok, r1, w1) →
      r1.finished = false →
      requestDispatch p false ty pathname false rest out =
        (.error (.panic (ascii "assertion failed: process_input.finished()")),
          w1.out ++ pkt_bin_write w1.buffer ++ pktEndB ++ pktEndB)) ∧
    (p.should_delay pathname ty = true →
      p.schedule_process pathname ty (mkReader rest) = (.ok, r1) →
      r1.finished = false →
      requestDispatch p false ty pathname true rest out =
        (.error (.panic (ascii "assertion failed: process_input.finished()")),
          out ++ pkt_text_write (ascii "status=delayed") ++ pktEndB)) ∧
    (p.process pathname ty (mkReader rest)
        { buffer := [], out := out ++ pkt_text_write (ascii "status=success") ++ pktEndB,
          written := 0 } = (.err, r1, w1) →
      requestDispatch p false ty pathname false rest out =
        (.ok .term, w1.out ++ pkt_bin_write w1.buffer ++ pktEndB ++
          pkt_text_write (ascii "status=error") ++ pktEndB)) := by
  refine ⟨?_, ?_, ?_⟩
  · intro hp hf
    unfold requestDispatch finishDispatch
    rw [if_neg (by simp)]
    rw [if_neg (by simp)]
    simp only []
    rw [hp]
    simp [writePkt_flush, writePkt_flushBuf, dropWritePkt, hf, List.append_assoc]
  · intro hd hs hf
    unfold requestDispatch finishDispatch
    rw [if_neg (by simp)]
    rw [if_pos (by simp [hd])]
    rw [hs]
    simp [hf]
  · intro hp
    unfold requestDispatch
    rw [if_neg (by simp)]
    rw [if_neg (by simp)]
    simp only []
    rw [hp]
    simp [writePkt_flush, writePkt_flushBuf, dropWritePkt, List.append_assoc]

/-- Claim C5: (witness): all three amended facts at concrete inputs —
`okProc` succeeds without draining (assertion panic), `schedNoReadProc`
schedules without draining (assertion panic), and `noopProc` fails inline
(clean termination with the error envelope and a flushed, empty writer). -/
theorem C5_scoped_acquisition_amended_witness :
    (requestDispatch okProc false ProcessingType.Clean (ascii "a") false
        (lenHex 6 ++ ([104, 105] ++ pktEndB)) [] =
      (.error (.panic (ascii "assertion failed: process_input.finished()")),
        ([] ++ pkt_text_write (ascii "status=success") ++ pktEndB) ++ pkt_bin_write [] ++
          pktEndB ++ pktEndB)) ∧
    (requestDispatch schedNoReadProc false ProcessingType.Clean (ascii "a") true
        (lenHex 6 ++ ([104, 105] ++ pktEndB)) [] =
      (.error (.panic (ascii "assertion failed: process_input.finished()")),
        [] ++ pkt_text_write (ascii "status=delayed") ++ pktEndB)) ∧
    (requestDispatch noopProc false ProcessingType.Clean (ascii "a") false
        (lenHex 6 ++ ([104, 105] ++ pktEndB)) [] =
      (.ok .term, ([] ++ pkt_text_write (ascii "status=success") ++ pktEndB) ++
        pkt_bin_write [] ++ pktEndB ++ pkt_text_write (ascii "status=error") ++ pktEndB)) :=
  ⟨(C5_scoped_acquisition_amended okProc ProcessingType.Clean (ascii "a")
      (lenHex 6 ++ ([104, 105] ++ pktEndB)) []
      (mkReader (lenHex 6 ++ ([104, 105] ++ pktEndB)))
      { buffer := [], out := [] ++ pkt_text_write (ascii "status=success") ++ pktEndB,
        written := 0 }).1 rfl rfl,
   (C5_scoped_acquisition_amended schedNoReadProc ProcessingType.Clean (ascii "a")
      (lenHex 6 ++ ([104, 105] ++ pktEndB)) []
      (mkReader (lenHex 6 ++ ([104, 105] ++ pktEndB)))
      { buffer := [], out := [], written := 0 }).2.1 rfl rfl rfl,
   (C5_scoped_acquisition_amended noopProc ProcessingType.Clean (ascii "a")
      (lenHex 6 ++ ([104, 105] ++ pktEndB)) []
      (mkReader (lenHex 6 ++ ([104, 105] ++ pktEndB)))
      { buffer := [], out := [] ++ pkt_text_write (ascii "status=success") ++ pktEndB,
        written := 0 }).2.2 rfl⟩

/-- Claim C7: (confirmed).  When the Processor's `process` fails during inline
processing: (1) the dispatch emits the writer's buffered output as payload
frames (`pkt_bin_write w1.buffer` after whatever `w1.out` already carries),
then a flush closing the payload stream, then the `status=error` frame,
then a flush, and ends the session with outcome `term`; (2) a command loop
iteration whose clean dispatch terminates yields `Ok(())`; (3) a session
whose internal run returns `Ok(())` is reported as success by the top-level
`communicate`. -/
theorem C7_inline_error_envelope (p : ProcModel) (ty : ProcessingType)
    (pathname rest out : List Nat) (r1 : ReadPktState) (w1 : WritePktState) :
    (p.process pathname ty (mkReader rest)
        { buffer := [], out := out ++ pkt_text_write (ascii "status=success") ++ pktEndB,
          written := 0 } = (.err, r1, w1) →
      requestDispatch p false ty pathname false rest out =
        (.ok .term, w1.out ++ pkt_bin_write w1.buffer ++ pktEndB ++
          pkt_text_write (ascii "status=error") ++ pktEndB)) ∧
    (∀ (f : Nat) (waiting : Bool) (input out2 pn : List Nat) (cd : Bool)
        (rest2 out3 : List Nat),
      blockLoop input none none false = .ok (some (ascii "clean"), some pn, cd, rest2) →
      requestDispatch p waiting ProcessingType.Clean pn cd rest2 out2 = (.ok .term, out3) →
      commandLoop p (f + 1) waiting input out2 = (.ok (), out3)) ∧
    (∀ (fuel : Nat) (input outF : List Nat),
      communicate_internal p fuel input = (.ok (), outF) →
      communicate p fuel input = (.ok (), outF)) := by
  refine ⟨?_, ?_, ?_⟩
  · intro hp
    unfold requestDispatch
    rw [if_neg (by simp)]
    rw [if_neg (by simp)]
    simp only []
    rw [hp]
    simp [writePkt_flush, writePkt_flushBuf, dropWritePkt, List.append_assoc]
  · intro f waiting input out2 pn cd rest2 out3 hb hd
    simp only [commandLoop, hb]
    simp only [true_or, if_true, ite_true]
    rw [hd]
  · intro fuel input outF h
    unfold communicate
    rw [h]

/-- The full session used in the C7 witness: hello, empty capability
block, a `command=clean` / `pathname=x` request, a 2-byte payload, flush. -/
def C7sessionIn : List Nat :=
  helloWire ++ (pktEndB ++ (textWire (ascii "command=clean") ++
    (textWire (ascii "pathname=x") ++ (pktEndB ++ (lenHex 6 ++ ([104, 105] ++ pktEndB))))))

/-- The bytes the server emits on `C7sessionIn` with the no-op Processor:
hello reply, empty capability reply, `status=success`, flush, then the
error envelope (flush, `status=error`, flush). -/
def C7sessionOut : List Nat :=
  helloOut ++ pktEndB ++ (pkt_text_write (ascii "status=success") ++ pktEndB) ++
    pktEndB ++ pkt_text_write (ascii "status=error") ++ pktEndB

/-- Claim C7: (witness): the no-op Processor (whose `process` always fails)
run at concrete inputs for all three parts. -/
theorem C7_inline_error_envelope_witness :
    (requestDispatch noopProc false ProcessingType.Clean (ascii "x") false
        (lenHex 6 ++ ([104, 105] ++ pktEndB)) [] =
      (.ok .term, ([] ++ pkt_text_write (ascii "status=success") ++ pktEndB) ++
        pkt_bin_write [] ++ pktEndB ++ pkt_text_write (ascii "status=error") ++ pktEndB)) ∧
    (commandLoop noopProc 1 false
        (textWire (ascii "command=clean") ++ (textWire (ascii "pathname=x") ++
          (pktEndB ++ (lenHex 6 ++ ([104, 105] ++ pktEndB))))) [] =
      (.ok (), pkt_text_write (ascii "status=success") ++ pktEndB ++ pktEndB ++
        pkt_text_write (ascii "status=error") ++ pktEndB)) ∧
    (communicate noopProc 2 C7sessionIn = (.ok (), C7sessionOut)) :=
  ⟨(C7_inline_error_envelope noopProc ProcessingType.Clean (ascii "x")
      (lenHex 6 ++ ([104, 105] ++ pktEndB)) []
      (mkReader (lenHex 6 ++ ([104, 105] ++ pktEndB)))
      { buffer := [], out := [] ++ pkt_text_write (ascii "status=success") ++ pktEndB,
        written := 0 }).1 rfl,
   (C7_inline_error_envelope noopProc ProcessingType.Clean (ascii "x")
      (lenHex 6 ++ ([104, 105] ++ pktEndB)) []
      (mkReader (lenHex 6 ++ ([104, 105] ++ pktEndB)))
      { buffer := [], out := [], written := 0 }).2.1 0 false
      (textWire (ascii "command=clean") ++ (textWire (ascii "pathname=x") ++
        (pktEndB ++ (lenHex 6 ++ ([104, 105] ++ pktEndB))))) []
      (ascii "x") false (lenHex 6 ++ ([104, 105] ++ pktEndB))
      (pkt_text_write (ascii "status=success") ++ pktEndB ++ pktEndB ++
        pkt_text_write (ascii "status=error") ++ pktEndB)
      (by set_option maxRecDepth 10000 in decide)
      (by set_option maxRecDepth 10000 in decide),
   (C7_inline_error_envelope noopProc ProcessingType.Clean (ascii "x")
      (lenHex 6 ++ ([104, 105] ++ pktEndB)) []
      (mkReader (lenHex 6 ++ ([104, 105] ++ pktEndB)))
      { buffer := [], out := [], written := 0 }).2.2 2 C7sessionIn C7sessionOut
      (by set_option maxRecDepth 10000 in decide)⟩

/-! ### C8: the bounded-writer / bounded-reader round trip -/

/-- The wire bytes of a sequence of payload frames. -/
def framesBytes (ps : List (List Nat)) : List Nat :=
  ps.flatMap fun p => lenHex (p.length + 4) ++ p

/-- Predicate: `wire` is a well-formed sequence of payload frames whose payloads
concatenate to `b` (each payload nonempty and within the decoder's limit). -/
def FrameSeq (wire b : List Nat) : Prop :=
  ∃ ps, wire = framesBytes ps ∧ (∀ p ∈ ps, 1 ≤ p.length ∧ p.length ≤ 65516) ∧
    ps.flatten = b

theorem framesBytes_nil : framesBytes [] = [] := rfl

theorem framesBytes_append (ps qs : List (List Nat)) :
    framesBytes (ps ++ qs) = framesBytes ps ++ framesBytes qs := by
  simp [framesBytes]

theorem FrameSeq_nil : FrameSeq [] [] := ⟨[], rfl, by simp, rfl⟩

theorem FrameSeq_append {w1 b1 w2 b2 : List Nat}
    (h1 : FrameSeq w1 b1) (h2 : FrameSeq w2 b2) :
    FrameSeq (w1 ++ w2) (b1 ++ b2) := by
  obtain ⟨ps, hw1, hb1, hf1⟩ := h1
  obtain ⟨qs, hw2, hb2, hf2⟩ := h2
  refine ⟨ps ++ qs, ?_, ?_, ?_⟩
  · rw [hw1, hw2, framesBytes_append]
  · intro p hp
    rcases List.mem_append.mp hp with hp | hp
    · exact hb1 p hp
    · exact hb2 p hp
  · rw [List.flatten_append, hf1, hf2]

/-- The truncating u16 cast in `pkt_bin_write` is the identity on chunk
lengths of at most 65512. -/
theorem flatMap_frames_of_bounds : ∀ (ps : List (List Nat)),
    (∀ p ∈ ps, p.length ≤ 65512) →
    (ps.flatMap fun c => lenHex ((c.length % 2 ^ 16 + 4) % 2 ^ 16) ++ c) = framesBytes ps := by
  intro ps
  induction ps with
  | nil => intro _; rfl
  | cons c cs ih =>
    intro h
    have hc := h c (List.mem_cons_self c cs)
    simp only [List.flatMap_cons, framesBytes] at *
    rw [ih fun p hp => h p (List.mem_cons_of_mem c hp)]
    have h1 : c.length % 2 ^ 16 = c.length := Nat.mod_eq_of_lt (by omega)
    rw [h1, Nat.mod_eq_of_lt (by omega)]

/-- Writing with `pkt_bin_write` always emits a well-formed frame sequence carrying
exactly the written bytes. -/
theorem pkt_bin_write_frameSeq (b : List Nat) : FrameSeq (pkt_bin_write b) b := by
  have hmem := chunks65512_mem b.length b le_rfl
  refine ⟨chunks65512 b, ?_, fun p hp => by have := hmem p hp; omega,
    chunks65512_flatten b.length b le_rfl⟩
  unfold pkt_bin_write
  exact flatMap_frames_of_bounds (chunks65512 b) fun p hp => (hmem p hp).2

/-- The write loop preserves the `WritePkt` invariant (buffer strictly
below `MAX_PKT_SIZE`) and emits a well-formed frame sequence: the bytes
framed so far plus the leftover buffer are exactly the old buffer plus the
written bytes. -/
theorem writeLoop_spec : ∀ (fuel : Nat) (w : WritePktState) (buf : List Nat),
    w.buffer.length < 65516 → buf.length < fuel →
    ∃ emitted c, (writeLoop fuel w buf).out = w.out ++ emitted ∧ FrameSeq emitted c ∧
      c ++ (writeLoop fuel w buf).buffer = w.buffer ++ buf ∧
      (writeLoop fuel w buf).buffer.length < 65516 := by
  intro fuel
  induction fuel with
  | zero => intro w buf hw hf; omega
  | succ n ih =>
    intro w buf hw hf
    match buf with
    | [] =>
      exact ⟨[], [], by simp [writeLoop], FrameSeq_nil, by simp [writeLoop], by
        simpa [writeLoop] using hw⟩
    | x :: xs =>
      simp only [writeLoop]
      set t := min (MAX_PKT_SIZE - w.buffer.length) (x :: xs).length with ht
      set w2 : WritePktState := { w with buffer := w.buffer ++ (x :: xs).take t } with hw2
      have ht1 : 1 ≤ t := by
        rw [ht]
        simp only [MAX_PKT_SIZE, List.length_cons, le_min_iff]
        omega
      have htle : t ≤ (x :: xs).length := by
        rw [ht]; exact min_le_right _ _
      have hdrop : ((x :: xs).drop t).length < n := by
        rw [List.length_drop]
        simp only [List.length_cons] at hf ⊢
        omega
      have hsplit : w.buffer ++ (x :: xs).take t ++ (x :: xs).drop t =
          w.buffer ++ (x :: xs) := by
        rw [List.append_assoc, List.take_append_drop]
      by_cases hflush : w2.buffer.length = MAX_PKT_SIZE
      · rw [if_pos hflush]
        obtain ⟨e2, c2, ho, hfs, hc, hb⟩ := ih (writePkt_flushBuf w2) ((x :: xs).drop t)
          (by simp [writePkt_flushBuf]) hdrop
        refine ⟨pkt_bin_write w2.buffer ++ e2, w2.buffer ++ c2, ?_, ?_, ?_, hb⟩
        · rw [ho]
          simp only [writePkt_flushBuf, hw2, List.append_assoc]
        · exact FrameSeq_append (pkt_bin_write_frameSeq w2.buffer) hfs
        · rw [List.append_assoc, hc]
          simp only [writePkt_flushBuf, List.nil_append, hw2]
          exact hsplit
      · rw [if_neg hflush]
        have hw2len : w2.buffer.length < 65516 := by
          have hlen2 : w2.buffer.length = w.buffer.length + t := by
            rw [hw2]
            simp only [List.length_append, List.length_take]
            rw [min_eq_left htle]
          have htle2 : t ≤ 65516 - w.buffer.length := by
            rw [ht]
            simp only [MAX_PKT_SIZE]
            exact min_le_left _ _
          rw [hlen2] at hflush ⊢
          simp only [MAX_PKT_SIZE] at hflush
          omega
        obtain ⟨e2, c2, ho, hfs, hc, hb⟩ := ih w2 ((x :: xs).drop t) hw2len hdrop
        refine ⟨e2, c2, ?_, hfs, ?_, hb⟩
        · rw [ho]
        · rw [hc]
          simp only [hw2]
          exact hsplit

/-- One `WritePkt::write` call, specified like the loop. -/
theorem writePkt_write_spec (w : WritePktState) (buf : List Nat)
    (hw : w.buffer.length < 65516) :
    ∃ emitted c, (writePkt_write w buf).out = w.out ++ emitted ∧ FrameSeq emitted c ∧
      c ++ (writePkt_write w buf).buffer = w.buffer ++ buf ∧
      (writePkt_write w buf).buffer.length < 65516 := by
  unfold writePkt_write
  by_cases hb : buf.length = 0
  · rw [if_pos hb]
    have : buf = [] := List.eq_nil_of_length_eq_zero hb
    subst this
    exact ⟨[], [], by simp, FrameSeq_nil, by simp, hw⟩
  · rw [if_neg hb]
    exact writeLoop_spec (buf.length + 1) w buf hw (by omega)

/-- A sequence of `write` calls, `writeAll`, as a client would issue them. -/
def writeAll (w : WritePktState) : List (List Nat) → WritePktState
  | [] => w
  | b :: bs => writeAll (writePkt_write w b) bs

theorem writeAll_spec : ∀ (ws : List (List Nat)) (w : WritePktState),
    w.buffer.length < 65516 →
    ∃ emitted c, (writeAll w ws).out = w.out ++ emitted ∧ FrameSeq emitted c ∧
      c ++ (writeAll w ws).buffer = w.buffer ++ ws.flatten ∧
      (writeAll w ws).buffer.length < 65516 := by
  intro ws
  induction ws with
  | nil =>
    intro w hw
    exact ⟨[], [], by simp [writeAll], FrameSeq_nil, by simp [writeAll], hw⟩
  | cons b bs ih =>
    intro w hw
    obtain ⟨e1, c1, ho1, hf1, hc1, hb1⟩ := writePkt_write_spec w b hw
    obtain ⟨e2, c2, ho2, hf2, hc2, hb2⟩ := ih (writePkt_write w b) hb1
    refine ⟨e1 ++ e2, c1 ++ c2, ?_, FrameSeq_append hf1 hf2, ?_, hb2⟩
    · show (writeAll (writePkt_write w b) bs).out = _
      rw [ho2, ho1, List.append_assoc]
    · show c1 ++ c2 ++ (writeAll (writePkt_write w b) bs).buffer = _
      rw [List.append_assoc, hc2, ← List.append_assoc, hc1, List.append_assoc,
        List.flatten_cons]

/-- The full wire output of the bounded writer for the write calls `ws`
followed by the final `flush`: a fresh `WritePkt`, all writes, `flush`. -/
def writerOut (ws : List (List Nat)) : List Nat :=
  (writePkt_flush (writeAll { buffer := [], out := [], written := 0 } ws)).out

/-- The writer's whole output is a well-formed frame sequence carrying
exactly the concatenation of all written chunks. -/
theorem writerOut_frameSeq (ws : List (List Nat)) : FrameSeq (writerOut ws) ws.flatten := by
  obtain ⟨e, c, ho, hf, hc, hb⟩ :=
    writeAll_spec ws { buffer := [], out := [], written := 0 } (by simp)
  unfold writerOut writePkt_flush writePkt_flushBuf
  rw [ho]
  simp only [List.nil_append]
  have := FrameSeq_append hf
    (pkt_bin_write_frameSeq (writeAll { buffer := [], out := [], written := 0 } ws).buffer)
  rw [hc] at this
  simpa using this

theorem lenHex_length (L : Nat) : (lenHex L).length = 4 := rfl

theorem framesBytes_cons (p : List Nat) (ps : List (List Nat)) :
    framesBytes (p :: ps) = lenHex (p.length + 4) ++ (p ++ framesBytes ps) := by
  simp [framesBytes, List.append_assoc]

/-- Dead reader states stay dead: once `eof` holds, `readUntilFinished`
returns the accumulator at any fuel. -/
theorem readUntilFinished_eof (sizes : Nat → Nat) (m : Nat) (st : ReadPktState)
    (acc : List Nat) (he : st.eof = true) :
    readUntilFinished sizes m st acc = .ok acc := by
  cases m <;> simp [readUntilFinished, he]

set_option maxRecDepth 4000 in
/-- The reader specification: starting anywhere inside a frame sequence
terminated by a flush, reading with *any* chunk sizes (each at least one
byte) until `finished()` yields the rest of the current frame buffer
followed by all remaining payloads, and nothing else. -/
theorem readUntilFinished_spec : ∀ (fuel : Nat) (ps : List (List Nat)) (sizes : Nat → Nat)
    (st : ReadPktState) (acc rest : List Nat),
    (∀ p ∈ ps, 1 ≤ p.length ∧ p.length ≤ 65516) →
    st.eof = false →
    st.input = framesBytes ps ++ (pktEndB ++ rest) →
    (∀ i, 1 ≤ sizes i) →
    (st.buffer.drop st.offset).length + (framesBytes ps).length + 1 ≤ fuel →
    readUntilFinished sizes fuel st acc =
      .ok (acc ++ (st.buffer.drop st.offset ++ ps.flatten)) := by
  intro fuel
  induction fuel with
  | zero => intro ps sizes st acc rest hb he hi hs hf; omega
  | succ n ih =>
    intro ps sizes st acc rest hb he hi hs hf
    simp only [readUntilFinished, he, Bool.false_eq_true, if_false]
    by_cases hav : st.buffer.drop st.offset = []
    · cases ps with
      | nil =>
        have hread : readPkt st (sizes 0) =
            .ok ([], { st with input := rest, eof := true }) := by
          unfold readPkt
          rw [if_neg (by simp [he]), if_pos hav, hi]
          rw [framesBytes_nil, List.nil_append, pkt_bin_read_flush]
        rw [hread]
        simp only []
        rw [readUntilFinished_eof (fun i => sizes (i + 1)) n
          { st with input := rest, eof := true } (acc ++ []) rfl]
        simp [hav]
      | cons p ps2 =>
        obtain ⟨hp1, hp2⟩ := hb p (List.mem_cons_self p ps2)
        have hframe : pkt_bin_read st.input =
            .ok (some p, framesBytes ps2 ++ (pktEndB ++ rest)) := by
          rw [hi, framesBytes_cons]
          simp only [List.append_assoc]
          exact pkt_bin_read_frame p (framesBytes ps2 ++ (pktEndB ++ rest)) hp1 hp2
        have hpne : ¬(p = []) := by
          intro hcon; rw [hcon] at hp1; simp at hp1
        have hread : readPkt st (sizes 0) = .ok (p.take (min p.length (sizes 0)),
            { st with
              input := framesBytes ps2 ++ (pktEndB ++ rest)
              buffer := p
              offset := min p.length (sizes 0)
              read_bytes := satAdd st.read_bytes (min p.length (sizes 0)) }) := by
          unfold readPkt
          rw [if_neg (by simp [he]), if_pos hav, hframe]
          simp only [hpne, if_false, ite_false]
        rw [hread]
        simp only []
        have hk1 : 1 ≤ min p.length (sizes 0) := le_min hp1 (hs 0)
        have hIH := ih ps2 (fun i => sizes (i + 1))
          { st with
            input := framesBytes ps2 ++ (pktEndB ++ rest)
            buffer := p
            offset := min p.length (sizes 0)
            read_bytes := satAdd st.read_bytes (min p.length (sizes 0)) }
          (acc ++ p.take (min p.length (sizes 0))) rest
          (fun q hq => hb q (List.mem_cons_of_mem p hq))
          (by simp [he]) (by simp) (fun i => hs (i + 1)) ?_
        · rw [hIH]
          simp only []
          congr 1
          rw [List.append_assoc]
          congr 1
          rw [hav, List.nil_append, List.flatten_cons, ← List.append_assoc,
            List.take_append_drop]
        · simp only [List.length_drop, hav, List.length_nil] at hf ⊢
          simp only [framesBytes_cons, List.length_append, lenHex_length] at hf
          omega
    · have hread : readPkt st (sizes 0) =
          .ok ((st.buffer.drop st.offset).take
              (min (st.buffer.drop st.offset).length (sizes 0)),
            { st with
              offset := st.offset + min (st.buffer.drop st.offset).length (sizes 0)
              read_bytes := satAdd st.read_bytes
                (min (st.buffer.drop st.offset).length (sizes 0)) }) := by
        unfold readPkt
        rw [if_neg (by simp [he]), if_neg hav]
      rw [hread]
      simp only []
      have hk1 : 1 ≤ min (st.buffer.drop st.offset).length (sizes 0) :=
        le_min (by cases hq : st.buffer.drop st.offset with
          | nil => exact absurd hq hav
          | cons a l => simp) (hs 0)
      have hIH := ih ps (fun i => sizes (i + 1))
        { st with
          offset := st.offset + min (st.buffer.drop st.offset).length (sizes 0)
          read_bytes := satAdd st.read_bytes
            (min (st.buffer.drop st.offset).length (sizes 0)) }
        (acc ++ (st.buffer.drop st.offset).take
          (min (st.buffer.drop st.offset).length (sizes 0))) rest
        hb (by simp [he]) (by simp [hi]) (fun i => hs (i + 1)) ?_
      · rw [hIH]
        simp only []
        congr 1
        rw [List.append_assoc]
        congr 1
        rw [show st.buffer.drop (st.offset +
            min (st.buffer.drop st.offset).length (sizes 0)) =
          (st.buffer.drop st.offset).drop
            (min (st.buffer.drop st.offset).length (sizes 0)) from by
            rw [List.drop_drop, Nat.add_comm]]
        rw [← List.append_assoc, List.take_append_drop]
      · simp only [List.length_drop] at hf hk1 ⊢
        omega

/-- Claim C8: (confirmed).  For every byte sequence (here given as its
arbitrary splitting `ws` into write calls, `b = ws.flatten`): writing the
chunks of `ws` through the bounded writer, flushing it, and closing the
payload stream with one wire flush frame produces a stream from which the
bounded reader — driven with *any* per-call chunk sizes of at least one
byte — reads back exactly `b` by the time `finished()` holds, regardless
of how the writes or the reads were chunked. -/
theorem C8_bounded_stream_roundtrip (ws : List (List Nat)) (sizes : Nat → Nat)
    (rest : List Nat) (hs : ∀ i, 1 ≤ sizes i) :
    readUntilFinished sizes ((writerOut ws).length + 1)
      (mkReader (writerOut ws ++ (pktEndB ++ rest))) [] = .ok ws.flatten := by
  obtain ⟨ps, hwire, hbounds, hflat⟩ := writerOut_frameSeq ws
  have hspec := readUntilFinished_spec ((writerOut ws).length + 1) ps sizes
    (mkReader (writerOut ws ++ (pktEndB ++ rest))) [] rest hbounds rfl
    (by rw [hwire]; rfl) hs ?_
  · rw [hspec]
    simp only [mkReader, List.drop_nil, List.nil_append, hflat]
  · simp only [mkReader, List.drop_nil, List.length_nil, hwire]
    omega

/-- Claim C8: (witness): the writes `[104]`, `[]`, `[105]` followed by flush,
read back with constant chunk size 2, yield `[104, 105]`. -/
theorem C8_bounded_stream_roundtrip_witness :
    readUntilFinished (fun _ => 2) ((writerOut [[104], [], [105]]).length + 1)
      (mkReader (writerOut [[104], [], [105]] ++ (pktEndB ++ [48]))) [] =
      .ok [104, 105] :=
  C8_bounded_stream_roundtrip [[104], [], [105]] (fun _ => 2) [48] (fun _ => by norm_num)
